import Mathlib

/-!
Shallow embedding of the user-management app's schema-driven form/validation
core (`src/utils/validation.ts`, `src/config/userSchema.ts`,
`src/components/UserForm.tsx`, `src/hooks/useUserCRUD.ts`).

Strings are modelled as Lean `String` (a list of characters); JavaScript's
`.length` is the character count, which agrees for all inputs considered
here.  JavaScript objects used as string maps are modelled as association
lists with first-match lookup (`objGet`) and replace-or-append update
(`objSet`), the semantics of property access and spread-override.
-/

namespace UserMgmt

/-- The characters matched by the JavaScript regex class `\s`
(ECMAScript WhiteSpace ∪ LineTerminator): tab, LF, VT, FF, CR, space,
NBSP, U+1680, U+2000–U+200A, LS, PS, U+202F, U+205F, U+3000, BOM. -/
def isJsWhitespace (c : Char) : Bool :=
  c.toNat == 9 || c.toNat == 10 || c.toNat == 11 || c.toNat == 12 ||
  c.toNat == 13 || c.toNat == 32 || c.toNat == 160 || c.toNat == 5760 ||
  (decide (8192 ≤ c.toNat) && decide (c.toNat ≤ 8202)) ||
  c.toNat == 8232 || c.toNat == 8233 || c.toNat == 8239 ||
  c.toNat == 8287 || c.toNat == 12288 || c.toNat == 65279

/-- JavaScript `String.prototype.trim`: drop leading and trailing
whitespace characters. -/
def jsTrim (l : List Char) : List Char :=
  ((l.dropWhile isJsWhitespace).reverse.dropWhile isJsWhitespace).reverse

/-- The truthiness test `!value || value.trim().length === 0` that opens
every validator (`value` empty or whitespace-only). -/
def isBlank (l : List Char) : Bool :=
  l.isEmpty || (jsTrim l).isEmpty

/-- ASCII letter, the `a-zA-Z` ranges of the name regex. -/
def isAsciiLetter (c : Char) : Bool :=
  (decide (65 ≤ c.toNat) && decide (c.toNat ≤ 90)) ||
  (decide (97 ≤ c.toNat) && decide (c.toNat ≤ 122))

/-- One character of the regex class `[a-zA-Z\s'-]` used by `validateName`. -/
def nameChar (c : Char) : Bool :=
  isAsciiLetter c || isJsWhitespace c || c == '-' || c == '\''

/-- The test `/^[a-zA-Z\s'-]+$/.test value`: one or more `nameChar`s. -/
def nameRegexTest (l : List Char) : Bool :=
  !l.isEmpty && l.all nameChar

/-- `validateName` from `src/utils/validation.ts`. -/
def validateName (value : String) : String :=
  if isBlank value.data then "This field is required"
  else if value.data.length < 2 then "Name must be at least 2 characters"
  else if value.data.length > 50 then "Name must not exceed 50 characters"
  else if !nameRegexTest value.data then
    "Name can only contain letters, spaces, hyphens, and apostrophes"
  else ""

/-- One character of the regex class `[^\s@]` of the email regex. -/
def okEmailChar (c : Char) : Bool :=
  !isJsWhitespace c && c != '@'

/-- Split a list at the first occurrence of `c`: `some (p, r)` with
`l = p ++ c :: r` and `c ∉ p`, or `none` when `c` does not occur. -/
def splitAtFirst (c : Char) : List Char → Option (List Char × List Char)
  | [] => none
  | x :: xs =>
    if x = c then some ([], xs)
    else (splitAtFirst c xs).map (fun p => (x :: p.1, p.2))

/-- Does `'.'` occur at a position that is not the last one? -/
def dotNotLast : List Char → Bool
  | c₁ :: c₂ :: rest => c₁ == '.' || dotNotLast (c₂ :: rest)
  | _ => false

/-- Does `'.'` occur at a position of `l` that is neither first nor last? -/
def dotInner : List Char → Bool
  | _ :: t => dotNotLast t
  | [] => false

/-- The test `/^[^\s@]+@[^\s@]+\.[^\s@]+$/.test value`.  The `@` of the
pattern can only match the first `@` of the subject (the class `[^\s@]+`
before it cannot cross an `@`); after it the pattern needs some dot that
is neither the first nor the last character of the remainder, all of
whose characters lie in `[^\s@]`. -/
def emailRegexTest (s : List Char) : Bool :=
  match splitAtFirst '@' s with
  | none => false
  | some (pre, rest) =>
    !pre.isEmpty && pre.all okEmailChar && rest.all okEmailChar && dotInner rest

/-- `validateEmail` from `src/utils/validation.ts`. -/
def validateEmail (value : String) : String :=
  if isBlank value.data then "Email is required"
  else if !emailRegexTest value.data then "Please enter a valid email address"
  else ""

/-- One character of the regex class `[\s()-]` removed by
`value.replace(/[\s()-]/g, '')` in `validatePhone`. -/
def phoneStripChar (c : Char) : Bool :=
  isJsWhitespace c || c == '(' || c == ')' || c == '-'

/-- The test `/^\+?[\d]{10,}$/.test l`: an optional leading plus, then ten
or more decimal digits (a leading `+` must be consumed by `\+?`, since
`\d` cannot match it). -/
def phoneRegexTest : List Char → Bool
  | [] => false
  | x :: rest =>
    if x = '+' then decide (10 ≤ rest.length) && rest.all Char.isDigit
    else decide (10 ≤ (x :: rest).length) && (x :: rest).all Char.isDigit

/-- `validatePhone` from `src/utils/validation.ts`. -/
def validatePhone (value : String) : String :=
  if isBlank value.data then "Phone number is required"
  else if !phoneRegexTest (value.data.filter (fun c => !phoneStripChar c)) then
    "Phone number must contain at least 10 digits"
  else ""

/-- `validateField` from `src/utils/validation.ts`: routes on the
`validation` kind; any other (or absent) kind falls to the generic
required check.  The `fieldName` parameter is accepted and ignored,
as in the source. -/
def validateField (fieldName : String) (value : String)
    (validation : Option String) : String :=
  match validation with
  | some "name" => validateName value
  | some "email" => validateEmail value
  | some "phone" => validatePhone value
  | _ => if isBlank value.data then "This field is required" else ""

/-- One descriptor of `src/config/userSchema.ts` (interface `SchemaField`
of `src/types/user.ts`; the source's `type` field is called `fieldType`
here because `type` is reserved in Lean). -/
structure SchemaField where
  name : String
  label : String
  fieldType : String
  required : Bool
  validation : Option String
  placeholder : Option String
deriving DecidableEq

/-- The `userSchema` array of `src/config/userSchema.ts`, in source order. -/
def userSchema : List SchemaField :=
  [ ⟨"firstName", "First Name", "text", true, some "name", some "John"⟩,
    ⟨"lastName", "Last Name", "text", true, some "name", some "Doe"⟩,
    ⟨"email", "Email Address", "email", true, some "email",
      some "john@example.com"⟩,
    ⟨"phone", "Phone Number", "tel", true, some "phone",
      some "(555) 123-4567"⟩ ]

/-- JavaScript property read `obj[k]` on an object modelled as an
association list: first matching key, `none` when absent. -/
def objGet {α : Type} : List (String × α) → String → Option α
  | [], _ => none
  | (k', v) :: rest, k => if k' = k then some v else objGet rest k

/-- JavaScript spread-override `{...obj, [k]: v}`: replace the value at an
existing key in place, or append the new key at the end. -/
def objSet {α : Type} : List (String × α) → String → α → List (String × α)
  | [], k, v => [(k, v)]
  | (k', v') :: rest, k, v =>
    if k' = k then (k, v) :: rest else (k', v') :: objSet rest k v

/-- The `userSchema.forEach` accumulation loop of `validateFormData`,
generalised to an arbitrary descriptor list: for each descriptor, read
the draft value (`value || ''` turns an absent or empty value into `""`),
run `validateField`, and record the result when it is non-empty. -/
def validateFields :
    List SchemaField → List (String × String) → List (String × String)
  | [], _ => []
  | f :: fs, d =>
    let value := (objGet d f.name).getD ""
    let error := validateField f.name value f.validation
    if error = "" then validateFields fs d
    else (f.name, error) :: validateFields fs d

/-- `validateFormData` from `src/utils/validation.ts`. -/
def validateFormData (formData : List (String × String)) :
    List (String × String) :=
  validateFields userSchema formData

/-- `isFormValid` from `src/utils/validation.ts`:
`Object.values(errors).every((error) => !error)`. -/
def isFormValid (errors : List (String × String)) : Bool :=
  errors.all (fun p => p.2 == "")

/-- The state owned by the `UserForm` component: current field values,
per-field error messages, per-field touched flags. -/
structure FormState where
  formData : List (String × String)
  errors : List (String × String)
  touched : List (String × Bool)

/-- `handleChange` from `src/components/UserForm.tsx`: write the new value
into the draft; when the field is touched (`touched[name]` truthy, absent
meaning untouched), look its descriptor up in the schema and re-validate
just this field. -/
def handleChange (name value : String) (s : FormState) : FormState :=
  let formData' := objSet s.formData name value
  if (objGet s.touched name).getD false then
    let fieldSchema := userSchema.find? (fun f => f.name == name)
    let error := validateField name value (fieldSchema.bind SchemaField.validation)
    { formData := formData', errors := objSet s.errors name error,
      touched := s.touched }
  else
    { formData := formData', errors := s.errors, touched := s.touched }

/-- The `touchedFields` spread of `handleSubmit`:
`{...prev, ...touchedFields}` with every schema field mapped to `true`. -/
def markAllTouched (t : List (String × Bool)) : List (String × Bool) :=
  userSchema.foldl (fun acc f => objSet acc f.name true) t

/-- `handleSubmit` from `src/components/UserForm.tsx`.  The second
component of the result records the call to the caller-supplied
`onSubmit` handler: `some draft` when it was invoked with `draft`,
`none` when submission was aborted. -/
def handleSubmit (s : FormState) :
    FormState × Option (List (String × String)) :=
  let newErrors := validateFormData s.formData
  if !isFormValid newErrors then
    ({ formData := s.formData, errors := newErrors,
       touched := markAllTouched s.touched }, none)
  else
    (s, some s.formData)

/-- The submit-button enablement expression `isFormValidNow` of
`src/components/UserForm.tsx`:
`isFormValid(errors) && Object.values(formData).every((v) => v.trim().length > 0)`. -/
def isFormValidNow (s : FormState) : Bool :=
  isFormValid s.errors &&
    s.formData.all (fun p => decide (0 < (jsTrim p.2.data).length))

/-- A persisted user record (interface `User` of `src/types/user.ts`). -/
structure User where
  id : String
  firstName : String
  lastName : String
  email : String
  phone : String
  createdAt : String
deriving DecidableEq

/-- `ApiResponse<User>` of `src/types/user.ts`. -/
structure ApiResponse where
  success : Bool
  data : Option User
  error : Option String

/-- The observable behaviour of one backend call: it either resolves with
an `ApiResponse` or throws. -/
inductive BackendOutcome where
  | responds (r : ApiResponse)
  | throws

/-- The state owned by the `useUserCRUD` hook: the `LoadingState` flags
plus the `lastError` slot. -/
structure CrudState where
  creating : Bool
  updating : Bool
  deleting : Option String
  lastError : Option String

/-- A complete run of the façade's `createUser`: the state while the
backend call is in flight, the state on completion, which callbacks were
invoked (with which message), and the returned value (`none` models the
source's `null`). -/
structure CreateRun where
  midState : CrudState
  final : CrudState
  successCb : Option String
  errorCb : Option String
  result : Option User

/-- JavaScript `maybeMsg || fallback` on an optional string: the fallback
replaces both an absent and an empty (falsy) message. -/
def jsOrElse (o : Option String) (fallback : String) : String :=
  match o with
  | some m => if m = "" then fallback else m
  | none => fallback

/-- `createUser` from `src/hooks/useUserCRUD.ts`, as a function of the
backend's outcome.  The `try`/`catch`/`finally` of the source is rendered
by the case split on the outcome; the `finally` clearing of `creating` is
applied in every branch.  The `data` argument is passed to the backend
and otherwise unused, as in the source. -/
def createUser (data : List (String × String)) (outcome : BackendOutcome)
    (s : CrudState) : CreateRun :=
  let s₁ : CrudState := { s with creating := true, lastError := none }
  match outcome with
  | .responds r =>
    match r.success, r.data with
    | true, some u =>
      { midState := s₁, final := { s₁ with creating := false },
        successCb := some "User created successfully",
        errorCb := none, result := some u }
    | _, _ =>
      let e := jsOrElse r.error "Failed to create user"
      { midState := s₁,
        final := { s₁ with creating := false, lastError := some e },
        successCb := none, errorCb := some e, result := none }
  | .throws =>
    let e := "An unexpected error occurred while creating the user"
    { midState := s₁,
      final := { s₁ with creating := false, lastError := some e },
      successCb := none, errorCb := some e, result := none }

/-- The character class the specification's sentence for `name` describes
literally: letters `A-Z`/`a-z`, the space character, hyphen, apostrophe.
(The source's regex uses `\s`, which is wider than the space character.) -/
def specNameChar (c : Char) : Bool :=
  isAsciiLetter c || c == ' ' || c == '-' || c == '\''

/-- The stripped characters the specification's sentence for `phone`
describes literally: spaces, parentheses, and hyphens.  (The source's
regex class `[\s()-]` strips all whitespace, not only spaces.) -/
def specPhoneStripChar (c : Char) : Bool :=
  c == ' ' || c == '(' || c == ')' || c == '-'

/-! ## Basic lemmas about the JavaScript string primitives -/

theorem dropWhile_eq_nil_iff_all {α : Type} (p : α → Bool) (l : List α) :
    l.dropWhile p = [] ↔ l.all p = true := by
  induction l with
  | nil => simp
  | cons x xs ih =>
    by_cases h : p x
    · simp [List.dropWhile_cons, h, ih]
    · simp [List.dropWhile_cons, h]

theorem all_dropWhile {α : Type} (p : α → Bool) (l : List α) :
    (l.dropWhile p).all p = l.all p := by
  induction l with
  | nil => rfl
  | cons x xs ih =>
    by_cases h : p x
    · simp [List.dropWhile_cons, h, ih]
    · simp [List.dropWhile_cons, h]

theorem jsTrim_eq_nil_iff (l : List Char) :
    jsTrim l = [] ↔ l.all isJsWhitespace = true := by
  unfold jsTrim
  rw [List.reverse_eq_nil_iff, dropWhile_eq_nil_iff_all, List.all_reverse,
    all_dropWhile]

theorem isBlank_iff (l : List Char) :
    isBlank l = true ↔ l.all isJsWhitespace = true := by
  unfold isBlank
  rw [Bool.or_eq_true, List.isEmpty_iff, List.isEmpty_iff, jsTrim_eq_nil_iff]
  constructor
  · rintro (rfl | h)
    · rfl
    · exact h
  · intro h
    right
    exact h

theorem isBlank_iff_forall (l : List Char) :
    isBlank l = true ↔ ∀ c ∈ l, isJsWhitespace c = true := by
  rw [isBlank_iff, List.all_eq_true]

/-! ## Lemmas about the object-as-map operations -/

theorem objGet_objSet_self {α : Type} (l : List (String × α)) (k : String)
    (v : α) : objGet (objSet l k v) k = some v := by
  induction l with
  | nil => simp [objSet, objGet]
  | cons p rest ih =>
    obtain ⟨k', v'⟩ := p
    by_cases h : k' = k
    · simp [objSet, objGet, h]
    · simp [objSet, objGet, h, ih]

theorem objGet_objSet_ne {α : Type} (l : List (String × α)) (k k' : String)
    (v : α) (h : k' ≠ k) : objGet (objSet l k v) k' = objGet l k' := by
  have hne : k ≠ k' := fun hh => h hh.symm
  induction l with
  | nil => simp [objSet, objGet, hne]
  | cons p rest ih =>
    obtain ⟨k₀, v₀⟩ := p
    by_cases h₀ : k₀ = k
    · subst h₀
      simp [objSet, objGet, hne]
    · simp [objSet, objGet, h₀, ih]

/-! ## Characterisation of the three regex tests -/

theorem splitAtFirst_eq_none_iff (c : Char) (s : List Char) :
    splitAtFirst c s = none ↔ c ∉ s := by
  induction s with
  | nil => simp [splitAtFirst]
  | cons x xs ih =>
    by_cases hx : x = c
    · subst hx
      simp [splitAtFirst]
    · simp [splitAtFirst, hx, Option.map_eq_none', ih, Ne.symm hx]

theorem splitAtFirst_eq_some_iff (c : Char) (s p r : List Char) :
    splitAtFirst c s = some (p, r) ↔ s = p ++ c :: r ∧ c ∉ p := by
  induction s generalizing p r with
  | nil =>
    simp only [splitAtFirst]
    constructor
    · intro h
      simp at h
    · rintro ⟨h, -⟩
      exact absurd h.symm (by simp)
  | cons x xs ih =>
    by_cases hx : x = c
    · subst hx
      simp only [splitAtFirst, eq_self_iff_true, if_true, Option.some.injEq,
        Prod.mk.injEq]
      constructor
      · rintro ⟨rfl, rfl⟩
        exact ⟨rfl, by simp⟩
      · rintro ⟨heq, hnp⟩
        cases p with
        | nil =>
          simp only [List.nil_append, List.cons.injEq, true_and] at heq
          exact ⟨rfl, heq⟩
        | cons p₀ ps =>
          simp only [List.cons_append, List.cons.injEq] at heq
          exact absurd (heq.1 ▸ List.mem_cons_self x ps) hnp
    · simp only [splitAtFirst, if_neg hx]
      constructor
      · intro h
        rw [Option.map_eq_some'] at h
        obtain ⟨⟨q₁, q₂⟩, hq, hpr⟩ := h
        simp only [Prod.mk.injEq] at hpr
        obtain ⟨hp, hr⟩ := hpr
        obtain ⟨hxs, hnq⟩ := (ih q₁ q₂).mp hq
        subst hp
        subst hr
        constructor
        · simp [hxs]
        · intro hm
          rcases List.mem_cons.mp hm with h | h
          · exact hx h.symm
          · exact hnq h
      · rintro ⟨heq, hnp⟩
        cases p with
        | nil =>
          simp only [List.nil_append, List.cons.injEq] at heq
          exact absurd heq.1 hx
        | cons p₀ ps =>
          simp only [List.cons_append, List.cons.injEq] at heq
          obtain ⟨hxp, hxs⟩ := heq
          have hrec : splitAtFirst c xs = some (ps, r) :=
            (ih ps r).mpr ⟨hxs, fun hm => hnp (List.mem_cons_of_mem _ hm)⟩
          rw [hrec]
          simp [Option.map, hxp]

theorem dotNotLast_iff (l : List Char) :
    dotNotLast l = true ↔ ∃ b c, l = b ++ '.' :: c ∧ c ≠ [] := by
  induction l with
  | nil =>
    simp only [dotNotLast]
    constructor
    · intro h
      simp at h
    · rintro ⟨b, c, h, -⟩
      exact absurd h.symm (by simp)
  | cons x xs ih =>
    cases xs with
    | nil =>
      simp only [dotNotLast]
      constructor
      · intro h
        simp at h
      · rintro ⟨b, c, heq, hc⟩
        cases b with
        | nil =>
          simp only [List.nil_append, List.cons.injEq] at heq
          exact absurd heq.2.symm hc
        | cons b₀ bs =>
          simp only [List.cons_append, List.cons.injEq] at heq
          exact absurd heq.2.symm (by simp)
    | cons y ys =>
      rw [show dotNotLast (x :: y :: ys) = ((x == '.') || dotNotLast (y :: ys))
          from rfl,
        Bool.or_eq_true, beq_iff_eq, ih]
      constructor
      · rintro (h | ⟨b, c, heq, hc⟩)
        · exact ⟨[], y :: ys, by rw [h]; rfl, by simp⟩
        · exact ⟨x :: b, c, by simp [heq], hc⟩
      · rintro ⟨b, c, heq, hc⟩
        cases b with
        | nil =>
          simp only [List.nil_append, List.cons.injEq] at heq
          exact Or.inl heq.1
        | cons b₀ bs =>
          simp only [List.cons_append, List.cons.injEq] at heq
          exact Or.inr ⟨bs, c, heq.2, hc⟩

theorem phoneRegexTest_iff (l : List Char) :
    phoneRegexTest l = true ↔
      ((∃ rest, l = '+' :: rest ∧ 10 ≤ rest.length ∧
          ∀ c ∈ rest, c.isDigit = true) ∨
        (10 ≤ l.length ∧ ∀ c ∈ l, c.isDigit = true)) := by
  cases l with
  | nil => simp [phoneRegexTest]
  | cons x rest =>
    by_cases hx : x = '+'
    · subst hx
      simp only [phoneRegexTest, eq_self_iff_true, if_true, Bool.and_eq_true,
        decide_eq_true_eq, List.all_eq_true]
      constructor
      · rintro ⟨h10, hd⟩
        exact Or.inl ⟨rest, rfl, h10, hd⟩
      · rintro (⟨r, hr, h10, hd⟩ | ⟨-, hd⟩)
        · simp only [List.cons.injEq] at hr
          exact hr.2 ▸ ⟨h10, hd⟩
        · exact absurd (hd '+' (List.mem_cons_self _ _)) (by decide)
    · simp only [phoneRegexTest, if_neg hx, Bool.and_eq_true,
        decide_eq_true_eq, List.all_eq_true]
      constructor
      · rintro ⟨h10, hd⟩
        exact Or.inr ⟨h10, hd⟩
      · rintro (⟨r, hr, -, -⟩ | h)
        · simp only [List.cons.injEq] at hr
          exact absurd hr.1 hx
        · exact h

theorem emailRegexTest_iff (s : List Char) :
    emailRegexTest s = true ↔
      ∃ a b c : List Char, s = a ++ '@' :: (b ++ '.' :: c) ∧ a ≠ [] ∧
        b ≠ [] ∧ c ≠ [] ∧ (∀ x ∈ a, okEmailChar x = true) ∧
        (∀ x ∈ b, okEmailChar x = true) ∧ (∀ x ∈ c, okEmailChar x = true) := by
  cases hsp : splitAtFirst '@' s with
  | none =>
    have hnotin : '@' ∉ s := (splitAtFirst_eq_none_iff '@' s).mp hsp
    simp only [emailRegexTest, hsp]
    refine iff_of_false (by simp) ?_
    rintro ⟨a, b, c, heq, -, -, -, -, -, -⟩
    exact hnotin (by rw [heq]; exact List.mem_append_right _ (List.mem_cons_self _ _))
  | some pr =>
    obtain ⟨pre, rest⟩ := pr
    obtain ⟨hs2, hpre_not⟩ := (splitAtFirst_eq_some_iff '@' s pre rest).mp hsp
    simp only [emailRegexTest, hsp]
    rw [Bool.and_eq_true, Bool.and_eq_true, Bool.and_eq_true]
    constructor
    · rintro ⟨⟨⟨hne, hpa⟩, hra⟩, hdot⟩
      have hpre_ne : pre ≠ [] := by
        intro h
        subst h
        simp at hne
      cases rest with
      | nil => simp [dotInner] at hdot
      | cons r₀ t =>
        obtain ⟨b', c, htc, hc⟩ :=
          (dotNotLast_iff t).mp (by simpa [dotInner] using hdot)
        refine ⟨pre, r₀ :: b', c, ?_, hpre_ne, by simp, hc, ?_, ?_, ?_⟩
        · rw [hs2, htc]
          simp
        · exact fun x hx => (List.all_eq_true.mp hpa) x hx
        · intro x hx
          apply List.all_eq_true.mp hra
          rcases List.mem_cons.mp hx with rfl | hx
          · exact List.mem_cons_self _ _
          · exact List.mem_cons_of_mem _ (htc ▸ List.mem_append_left _ hx)
        · intro x hx
          apply List.all_eq_true.mp hra
          exact List.mem_cons_of_mem _
            (htc ▸ List.mem_append_right _ (List.mem_cons_of_mem _ hx))
    · rintro ⟨a, b, c, heq, ha, hb, hc, hha, hhb, hhc⟩
      have hsplit2 : splitAtFirst '@' s = some (a, b ++ '.' :: c) := by
        apply (splitAtFirst_eq_some_iff _ _ _ _).mpr
        refine ⟨by rw [heq], ?_⟩
        intro hm
        exact absurd (hha '@' hm) (by decide)
      rw [hsp] at hsplit2
      simp only [Option.some.injEq, Prod.mk.injEq] at hsplit2
      obtain ⟨hp, hr⟩ := hsplit2
      rw [hp, hr]
      refine ⟨⟨⟨?_, ?_⟩, ?_⟩, ?_⟩
      · cases a with
        | nil => exact absurd rfl ha
        | cons a₀ as => simp [List.isEmpty]
      · exact List.all_eq_true.mpr hha
      · apply List.all_eq_true.mpr
        intro x hx
        rcases List.mem_append.mp hx with h | h
        · exact hhb x h
        · rcases List.mem_cons.mp h with rfl | h
          · decide
          · exact hhc x h
      · cases b with
        | nil => exact absurd rfl hb
        | cons b₀ bs =>
          simp only [dotInner, List.cons_append]
          exact (dotNotLast_iff _).mpr ⟨bs, c, rfl, hc⟩

/-! ## Claims about the individual validators -/

/-- C1 (amended): for every string value, `validateName` returns the
required error exactly when the value is empty or whitespace-only;
otherwise a length error when its length is less than 2; otherwise a
length error when its length is greater than 50; otherwise a
character-class error when the value contains any character outside
letters `A-Z`/`a-z`, whitespace, hyphen, and apostrophe; otherwise the
empty string.  (Amendment: the source's regex class `[a-zA-Z\s'-]`
admits every `\s` whitespace character, not only the space character.) -/
theorem validateName_characterisation (v : String) :
    validateName v =
      if ∀ c ∈ v.data, isJsWhitespace c = true then "This field is required"
      else if v.length < 2 then "Name must be at least 2 characters"
      else if 50 < v.length then "Name must not exceed 50 characters"
      else if ∃ c ∈ v.data, nameChar c = false then
        "Name can only contain letters, spaces, hyphens, and apostrophes"
      else "" := by
  by_cases h1 : ∀ c ∈ v.data, isJsWhitespace c = true
  · rw [if_pos h1]
    have hb : isBlank v.data = true := (isBlank_iff_forall v.data).mpr h1
    simp [validateName, hb]
  · rw [if_neg h1]
    have hb : isBlank v.data = false := by
      cases hbv : isBlank v.data
      · rfl
      · exact absurd ((isBlank_iff_forall v.data).mp hbv) h1
    have hne : v.data ≠ [] := by
      intro h
      exact h1 (by rw [h]; exact fun c hc => absurd hc (List.not_mem_nil c))
    by_cases h2 : v.length < 2
    · rw [if_pos h2]
      simp [validateName, hb, h2]
    · rw [if_neg h2]
      by_cases h3 : 50 < v.length
      · rw [if_pos h3]
        simp [validateName, hb, h2, h3]
      · rw [if_neg h3]
        by_cases h4 : ∃ c ∈ v.data, nameChar c = false
        · rw [if_pos h4]
          have hf : nameRegexTest v.data = false := by
            obtain ⟨c, hc, hcf⟩ := h4
            have hall : v.data.all nameChar = false :=
              List.all_eq_false.mpr ⟨c, hc, by simp [hcf]⟩
            simp [nameRegexTest, hall]
          simp [validateName, hb, h2, h3, hf]
        · rw [if_neg h4]
          have hall : v.data.all nameChar = true := by
            rw [List.all_eq_true]
            intro c hc
            by_cases hcc : nameChar c = true
            · exact hcc
            · exact absurd ⟨c, hc, by simpa using hcc⟩ h4
          have ht : nameRegexTest v.data = true := by
            simp [nameRegexTest, hall, List.isEmpty_iff, hne]
          simp [validateName, hb, h2, h3, ht]

/-- C1 counterexample: the tab character lies outside the claim's class
(letters, the space character, hyphen, apostrophe), so the claim requires
the character-class error on `"A\tB"`, yet `validateName` accepts it
(the source's `\s` matches the tab). -/
theorem validateName_space_only_claim_false :
    validateName "A\tB" = "" ∧
    ('\t' ∈ "A\tB".data ∧ specNameChar '\t' = false) ∧
    validateName "A\tB" ≠
      "Name can only contain letters, spaces, hyphens, and apostrophes" := by
  decide

/-- C2 (amended): the per-field router has no case for the validator kind
'date'; that kind falls through to the default generic required check,
so it returns the required error exactly when the value is empty or
whitespace-only, and the empty string otherwise — no date parsing
occurs. -/
theorem validateField_date_fallback (f v : String) :
    validateField f v (some "date") =
      if ∀ c ∈ v.data, isJsWhitespace c = true then "This field is required"
      else "" := by
  have hred : validateField f v (some "date") =
      if isBlank v.data then "This field is required" else "" := rfl
  rw [hred]
  by_cases h : ∀ c ∈ v.data, isJsWhitespace c = true
  · have hb : isBlank v.data = true := (isBlank_iff_forall v.data).mpr h
    rw [if_pos h, if_pos hb]
  · have hb : isBlank v.data = false := by
      cases hbv : isBlank v.data
      · rfl
      · exact absurd ((isBlank_iff_forall v.data).mp hbv) h
    rw [if_neg h, if_neg (by simp [hb])]

/-- C2 counterexample: with validator kind 'date' the router reports a
required error on the empty value (the claim says the empty value gets
no error) and accepts the non-date `"2020-99-99"` (the claim says a
value that does not parse as a calendar date gets an error). -/
theorem validateField_date_claim_false :
    validateField "birthday" "" (some "date") = "This field is required" ∧
    validateField "birthday" "" (some "date") ≠ "" ∧
    validateField "birthday" "2020-99-99" (some "date") = "" := by
  decide

/-- C7 (amended): for every string value, `validatePhone` returns the
required error exactly when the value is empty or whitespace-only;
otherwise, after removing whitespace characters, parentheses, and hyphens
from the value, it returns the empty string when the remainder consists
of an optional leading plus sign followed by 10 or more digits, and a
too-short error otherwise.  (Amendment: the source's regex class `[\s()-]`
strips every `\s` whitespace character, not only spaces.) -/
theorem validatePhone_characterisation (v : String) :
    (validatePhone v = "Phone number is required" ↔
      ∀ c ∈ v.data, isJsWhitespace c = true) ∧
    (validatePhone v = "" ↔
      ¬(∀ c ∈ v.data, isJsWhitespace c = true) ∧
      ((∃ rest, v.data.filter (fun c => !phoneStripChar c) = '+' :: rest ∧
          10 ≤ rest.length ∧ ∀ c ∈ rest, c.isDigit = true) ∨
        (10 ≤ (v.data.filter (fun c => !phoneStripChar c)).length ∧
          ∀ c ∈ v.data.filter (fun c => !phoneStripChar c), c.isDigit = true))) ∧
    (validatePhone v = "Phone number must contain at least 10 digits" ↔
      ¬(∀ c ∈ v.data, isJsWhitespace c = true) ∧
      ¬((∃ rest, v.data.filter (fun c => !phoneStripChar c) = '+' :: rest ∧
          10 ≤ rest.length ∧ ∀ c ∈ rest, c.isDigit = true) ∨
        (10 ≤ (v.data.filter (fun c => !phoneStripChar c)).length ∧
          ∀ c ∈ v.data.filter (fun c => !phoneStripChar c), c.isDigit = true))) := by
  by_cases h1 : ∀ c ∈ v.data, isJsWhitespace c = true
  · have hb : isBlank v.data = true := (isBlank_iff_forall v.data).mpr h1
    have hv : validatePhone v = "Phone number is required" := by
      simp [validatePhone, hb]
    rw [hv]
    exact ⟨iff_of_true rfl h1,
      iff_of_false (by decide) (fun h => h.1 h1),
      iff_of_false (by decide) (fun h => h.1 h1)⟩
  · have hb : isBlank v.data = false := by
      cases hbv : isBlank v.data
      · rfl
      · exact absurd ((isBlank_iff_forall v.data).mp hbv) h1
    by_cases h2 : phoneRegexTest (v.data.filter (fun c => !phoneStripChar c)) = true
    · have hv : validatePhone v = "" := by
        simp [validatePhone, hb, h2]
      rw [hv]
      have hsh := (phoneRegexTest_iff _).mp h2
      exact ⟨iff_of_false (by decide) h1,
        iff_of_true rfl ⟨h1, hsh⟩,
        iff_of_false (by decide) (fun h => h.2 hsh)⟩
    · have h2' : phoneRegexTest (v.data.filter (fun c => !phoneStripChar c)) = false := by
        cases hbv : phoneRegexTest (v.data.filter (fun c => !phoneStripChar c))
        · rfl
        · exact absurd hbv h2
      have hv : validatePhone v = "Phone number must contain at least 10 digits" := by
        simp [validatePhone, hb, h2']
      rw [hv]
      have hnsh := fun hs => h2 ((phoneRegexTest_iff _).mpr hs)
      exact ⟨iff_of_false (by decide) h1,
        iff_of_false (by decide) (fun h => hnsh h.2),
        iff_of_true rfl ⟨h1, hnsh⟩⟩

/-- C7 counterexample: on `"1234567890\t"` the claim's cleaning step
(spaces, parentheses, hyphens only) keeps the tab, so the remainder does
not match "optional plus then 10+ digits" and the claim requires the
too-short error; `validatePhone` strips the tab (`\s`) and accepts the
value. -/
theorem validatePhone_space_only_claim_false :
    validatePhone "1234567890\t" = "" ∧
    "1234567890\t".data.filter (fun c => !specPhoneStripChar c) =
      "1234567890\t".data ∧
    phoneRegexTest
      ("1234567890\t".data.filter (fun c => !specPhoneStripChar c)) = false ∧
    validatePhone "1234567890\t" ≠
      "Phone number must contain at least 10 digits" := by
  decide

/-- C8: for every string value, `validateEmail` returns the required error
exactly when the value is empty or whitespace-only; otherwise it returns
the empty string exactly when the value splits as one or more
non-whitespace-non-`@` characters, `@`, one or more such characters, a
literal dot, and one or more such characters; otherwise the
invalid-format error. -/
theorem validateEmail_characterisation (v : String) :
    (validateEmail v = "Email is required" ↔
      ∀ c ∈ v.data, isJsWhitespace c = true) ∧
    (validateEmail v = "" ↔
      ¬(∀ c ∈ v.data, isJsWhitespace c = true) ∧
      (∃ a b c : List Char, v.data = a ++ '@' :: (b ++ '.' :: c) ∧ a ≠ [] ∧
        b ≠ [] ∧ c ≠ [] ∧ (∀ x ∈ a, okEmailChar x = true) ∧
        (∀ x ∈ b, okEmailChar x = true) ∧ (∀ x ∈ c, okEmailChar x = true))) ∧
    (validateEmail v = "Please enter a valid email address" ↔
      ¬(∀ c ∈ v.data, isJsWhitespace c = true) ∧
      ¬(∃ a b c : List Char, v.data = a ++ '@' :: (b ++ '.' :: c) ∧ a ≠ [] ∧
        b ≠ [] ∧ c ≠ [] ∧ (∀ x ∈ a, okEmailChar x = true) ∧
        (∀ x ∈ b, okEmailChar x = true) ∧ (∀ x ∈ c, okEmailChar x = true))) := by
  by_cases h1 : ∀ c ∈ v.data, isJsWhitespace c = true
  · have hb : isBlank v.data = true := (isBlank_iff_forall v.data).mpr h1
    have hv : validateEmail v = "Email is required" := by
      simp [validateEmail, hb]
    rw [hv]
    exact ⟨iff_of_true rfl h1,
      iff_of_false (by decide) (fun h => h.1 h1),
      iff_of_false (by decide) (fun h => h.1 h1)⟩
  · have hb : isBlank v.data = false := by
      cases hbv : isBlank v.data
      · rfl
      · exact absurd ((isBlank_iff_forall v.data).mp hbv) h1
    by_cases h2 : emailRegexTest v.data = true
    · have hv : validateEmail v = "" := by
        simp [validateEmail, hb, h2]
      rw [hv]
      have hsh := (emailRegexTest_iff v.data).mp h2
      exact ⟨iff_of_false (by decide) h1,
        iff_of_true rfl ⟨h1, hsh⟩,
        iff_of_false (by decide) (fun h => h.2 hsh)⟩
    · have h2' : emailRegexTest v.data = false := by
        cases hbv : emailRegexTest v.data
        · rfl
        · exact absurd hbv h2
      have hv : validateEmail v = "Please enter a valid email address" := by
        simp [validateEmail, hb, h2']
      rw [hv]
      have hnsh := fun hs => h2 ((emailRegexTest_iff v.data).mpr hs)
      exact ⟨iff_of_false (by decide) h1,
        iff_of_false (by decide) (fun h => hnsh h.2),
        iff_of_true rfl ⟨h1, hnsh⟩⟩

/-- C10: the router's result is independent of the field-name argument:
it depends only on the value and the validator kind. -/
theorem validateField_ignores_fieldName (f₁ f₂ v : String)
    (k : Option String) : validateField f₁ v k = validateField f₂ v k := rfl

/-! ## Whole-record validation (C3) -/

theorem validateFields_congr (fs : List SchemaField)
    (d d' : List (String × String))
    (h : ∀ f ∈ fs, objGet d f.name = objGet d' f.name) :
    validateFields fs d = validateFields fs d' := by
  induction fs with
  | nil => rfl
  | cons f fs ih =>
    have hf := h f (List.mem_cons_self f fs)
    have ih' := ih (fun g hg => h g (List.mem_cons_of_mem f hg))
    simp only [validateFields, hf, ih']

theorem validateFields_keys (fs : List SchemaField)
    (d : List (String × String)) :
    (validateFields fs d).map Prod.fst =
      (fs.filter (fun f =>
        decide (validateField f.name ((objGet d f.name).getD "")
          f.validation ≠ ""))).map SchemaField.name := by
  induction fs with
  | nil => rfl
  | cons f fs ih =>
    by_cases h : validateField f.name ((objGet d f.name).getD "") f.validation = ""
    · simp [validateFields, h, List.filter_cons, ih]
    · simp [validateFields, h, List.filter_cons, ih]

theorem validateFields_values (fs : List SchemaField)
    (d : List (String × String)) :
    ∀ p ∈ validateFields fs d, p.2 ≠ "" := by
  induction fs with
  | nil =>
    intro p hp
    simp [validateFields] at hp
  | cons f fs ih =>
    intro p hp
    by_cases h : validateField f.name ((objGet d f.name).getD "") f.validation = ""
    · rw [show validateFields (f :: fs) d = validateFields fs d by
        simp [validateFields, h]] at hp
      exact ih p hp
    · rw [show validateFields (f :: fs) d =
          (f.name, validateField f.name ((objGet d f.name).getD "")
            f.validation) :: validateFields fs d by
        simp [validateFields, h]] at hp
      rcases List.mem_cons.mp hp with rfl | hp
      · exact h
      · exact ih p hp

/-- C3: `validateFormData` walks the schema in order, validating each
schema field's draft value (the empty string when the key is absent);
its result's keys are exactly the schema field names whose validator
rejects, each bound to a non-empty message; draft keys outside the
schema never appear in the result and never influence it (two drafts
agreeing on the schema fields validate identically). -/
theorem validateFormData_spec (d d' : List (String × String))
    (h : ∀ f ∈ userSchema, objGet d f.name = objGet d' f.name) :
    validateFormData d = validateFormData d' ∧
    (validateFormData d).map Prod.fst =
      (userSchema.filter (fun f =>
        decide (validateField f.name ((objGet d f.name).getD "")
          f.validation ≠ ""))).map SchemaField.name ∧
    (∀ p ∈ validateFormData d,
      p.1 ∈ userSchema.map SchemaField.name ∧ p.2 ≠ "") := by
  refine ⟨validateFields_congr userSchema d d' h,
    validateFields_keys userSchema d, ?_⟩
  intro p hp
  refine ⟨?_, validateFields_values userSchema d p hp⟩
  have hmem : p.1 ∈ (validateFormData d).map Prod.fst :=
    List.mem_map_of_mem Prod.fst hp
  rw [validateFormData, validateFields_keys userSchema d] at hmem
  obtain ⟨f, hf, hname⟩ := List.mem_map.mp hmem
  exact hname ▸ List.mem_map_of_mem SchemaField.name (List.mem_of_mem_filter hf)

/-- C3 witness: a draft carrying the extra key `junk` agrees with the
draft without it on every schema field, and both validate to the same
error mapping. -/
theorem validateFormData_spec_witness :
    (∀ f ∈ userSchema,
      objGet [("firstName", "Alice"), ("junk", "zz")] f.name =
        objGet [("firstName", "Alice")] f.name) ∧
    validateFormData [("firstName", "Alice"), ("junk", "zz")] =
      validateFormData [("firstName", "Alice")] :=
  ⟨by decide, (validateFormData_spec _ _ (by decide)).1⟩

/-! ## Form-level validity and submission (C4, C5) -/

theorem isFormValid_iff (errors : List (String × String)) :
    isFormValid errors = true ↔ ∀ p ∈ errors, p.2 = "" := by
  unfold isFormValid
  rw [List.all_eq_true]
  constructor
  · intro h p hp
    simpa using h p hp
  · intro h p hp
    simp [h p hp]

theorem objGet_foldl_objSet_true (fs : List SchemaField)
    (t : List (String × Bool)) (k : String) (h : objGet t k = some true) :
    objGet (fs.foldl (fun acc f => objSet acc f.name true) t) k = some true := by
  induction fs generalizing t with
  | nil => exact h
  | cons g gs ih =>
    rw [List.foldl_cons]
    apply ih
    by_cases hk : k = g.name
    · subst hk
      exact objGet_objSet_self _ _ _
    · rw [objGet_objSet_ne _ _ _ _ hk]
      exact h

theorem markAllTouched_mem (f : SchemaField) (hf : f ∈ userSchema)
    (t : List (String × Bool)) :
    objGet (markAllTouched t) f.name = some true := by
  have hred : markAllTouched t =
      objSet (objSet (objSet (objSet t "firstName" true) "lastName" true)
        "email" true) "phone" true := by
    simp [markAllTouched, userSchema]
  fin_cases hf
  · rw [hred, objGet_objSet_ne _ _ _ _ (by decide),
      objGet_objSet_ne _ _ _ _ (by decide),
      objGet_objSet_ne _ _ _ _ (by decide), objGet_objSet_self]
  · rw [hred, objGet_objSet_ne _ _ _ _ (by decide),
      objGet_objSet_ne _ _ _ _ (by decide), objGet_objSet_self]
  · rw [hred, objGet_objSet_ne _ _ _ _ (by decide), objGet_objSet_self]
  · rw [hred, objGet_objSet_self]

/-- C4: submission first validates the whole draft; when some field has a
non-empty error it stores all computed errors, marks every schema field
as touched, and does not invoke the caller-supplied handler; when none
has, it invokes the handler with the current draft and changes nothing. -/
theorem handleSubmit_spec (s : FormState) :
    ((∃ p ∈ validateFormData s.formData, p.2 ≠ "") →
      (handleSubmit s).2 = none ∧
      (handleSubmit s).1.errors = validateFormData s.formData ∧
      (handleSubmit s).1.formData = s.formData ∧
      ∀ f ∈ userSchema, objGet (handleSubmit s).1.touched f.name = some true) ∧
    ((∀ p ∈ validateFormData s.formData, p.2 = "") →
      handleSubmit s = (s, some s.formData)) := by
  constructor
  · rintro ⟨p, hp, hne⟩
    have hv : isFormValid (validateFormData s.formData) = false := by
      cases hbv : isFormValid (validateFormData s.formData)
      · rfl
      · exact absurd ((isFormValid_iff _).mp hbv p hp) hne
    have hs : handleSubmit s =
        ({ formData := s.formData, errors := validateFormData s.formData,
           touched := markAllTouched s.touched }, none) := by
      simp [handleSubmit, hv]
    rw [hs]
    exact ⟨rfl, rfl, rfl, fun f hf => markAllTouched_mem f hf s.touched⟩
  · intro h
    have hv : isFormValid (validateFormData s.formData) = true :=
      (isFormValid_iff _).mpr h
    simp [handleSubmit, hv]

/-- C5: the submit-button enablement predicate holds exactly when the
stored error mapping has no non-empty entry and every draft value is
non-empty after trimming whitespace. -/
theorem isFormValidNow_iff (s : FormState) :
    isFormValidNow s = true ↔
      (∀ p ∈ s.errors, p.2 = "") ∧
      (∀ p ∈ s.formData, jsTrim p.2.data ≠ []) := by
  unfold isFormValidNow
  rw [Bool.and_eq_true, isFormValid_iff, List.all_eq_true]
  simp only [decide_eq_true_eq, List.length_pos]

/-! ## Per-field change handling (C9) -/

theorem find?_userSchema (f : SchemaField) (hf : f ∈ userSchema) :
    userSchema.find? (fun g => g.name == f.name) = some f := by
  fin_cases hf <;> decide

/-- C9: for a schema field, OnChange writes only that field's draft entry,
leaves the touched set unchanged, and — when the field is touched —
recomputes and stores only that field's error with that field's validator
kind, leaving the error mapping untouched otherwise. -/
theorem handleChange_spec (f : SchemaField) (hf : f ∈ userSchema)
    (v : String) (s : FormState) :
    objGet (handleChange f.name v s).formData f.name = some v ∧
    (∀ m, m ≠ f.name →
      objGet (handleChange f.name v s).formData m = objGet s.formData m) ∧
    (handleChange f.name v s).touched = s.touched ∧
    ((objGet s.touched f.name).getD false = true →
      objGet (handleChange f.name v s).errors f.name =
        some (validateField f.name v f.validation) ∧
      ∀ m, m ≠ f.name →
        objGet (handleChange f.name v s).errors m = objGet s.errors m) ∧
    ((objGet s.touched f.name).getD false = false →
      (handleChange f.name v s).errors = s.errors) := by
  by_cases ht : (objGet s.touched f.name).getD false = true
  · have hc : handleChange f.name v s =
        { formData := objSet s.formData f.name v,
          errors := objSet s.errors f.name (validateField f.name v f.validation),
          touched := s.touched } := by
      simp [handleChange, ht, find?_userSchema f hf]
    rw [hc]
    refine ⟨objGet_objSet_self _ _ _,
      fun m hm => objGet_objSet_ne _ _ _ _ hm, rfl,
      fun _ => ⟨objGet_objSet_self _ _ _,
        fun m hm => objGet_objSet_ne _ _ _ _ hm⟩,
      fun hfalse => absurd (ht.symm.trans hfalse) (by decide)⟩
  · have ht' : (objGet s.touched f.name).getD false = false := by
      cases hbv : (objGet s.touched f.name).getD false
      · rfl
      · exact absurd hbv ht
    have hc : handleChange f.name v s =
        { formData := objSet s.formData f.name v, errors := s.errors,
          touched := s.touched } := by
      simp [handleChange, ht']
    rw [hc]
    exact ⟨objGet_objSet_self _ _ _,
      fun m hm => objGet_objSet_ne _ _ _ _ hm, rfl,
      fun htrue => absurd (ht'.symm.trans htrue) (by decide),
      fun _ => rfl⟩

/-- C9 witness: changing the touched `email` field of a concrete form
state stores the new value in the draft. -/
theorem handleChange_spec_witness :
    SchemaField.mk "email" "Email Address" "email" true (some "email")
      (some "john@example.com") ∈ userSchema ∧
    objGet (handleChange "email" "x"
      (FormState.mk [("email", "old")] [] [("email", true)])).formData
      "email" = some "x" :=
  ⟨by decide, (handleChange_spec
    (SchemaField.mk "email" "Email Address" "email" true (some "email")
      (some "john@example.com")) (by decide) "x"
    (FormState.mk [("email", "old")] [] [("email", true)])).1⟩

/-! ## The CRUD façade's create operation (C6) -/

/-- C6: `createUser` raises the `creating` flag for the duration of the
backend call and lowers it on completion in every outcome; a failure
response stores the backend's message (empty or absent message replaced
by the generic fallback, per JavaScript `||`), invokes only the failure
callback, and returns empty; a thrown exception is collapsed to the
generic create-specific message and handled the same way, never
propagated. -/
theorem createUser_spec (data : List (String × String)) (o : BackendOutcome)
    (s : CrudState) :
    (createUser data o s).midState.creating = true ∧
    (createUser data o s).final.creating = false ∧
    (∀ r, o = BackendOutcome.responds r →
      ¬(r.success = true ∧ r.data.isSome = true) →
      (createUser data o s).final.lastError =
        some (jsOrElse r.error "Failed to create user") ∧
      (createUser data o s).errorCb =
        some (jsOrElse r.error "Failed to create user") ∧
      (createUser data o s).successCb = none ∧
      (createUser data o s).result = none) ∧
    (o = BackendOutcome.throws →
      (createUser data o s).final.lastError =
        some "An unexpected error occurred while creating the user" ∧
      (createUser data o s).errorCb =
        some "An unexpected error occurred while creating the user" ∧
      (createUser data o s).successCb = none ∧
      (createUser data o s).result = none) := by
  cases o with
  | responds r =>
    obtain ⟨succ, dat, err⟩ := r
    cases succ <;> cases dat <;>
      refine ⟨rfl, rfl, ?_, fun h => by cases h⟩ <;>
      intro r hr hns <;> injection hr with hr2 <;> subst hr2
    · exact ⟨rfl, rfl, rfl, rfl⟩
    · exact ⟨rfl, rfl, rfl, rfl⟩
    · exact ⟨rfl, rfl, rfl, rfl⟩
    · exact absurd ⟨rfl, rfl⟩ hns
  | throws =>
    refine ⟨rfl, rfl, ?_, ?_⟩
    · intro r hr hns
      cases hr
    · intro h
      exact ⟨rfl, rfl, rfl, rfl⟩

end UserMgmt
